import Mathlib

set_option maxRecDepth 8000

/-!
Verification development for the `engine-rust` evolutionary-search service
(`src/services/engine-rust/src/{rng,genome,vm,evolve}.rs`).

Shallow embedding conventions:
* `f64` values are modelled by `F`: either NaN or an exact rational.
  Overflow of finite arithmetic to ±∞ is not modelled (arithmetic is exact
  on ℚ); every property proved here is independent of arithmetic values,
  depending only on NaN-ness, comparisons and container shapes.
* `rand::rngs::StdRng` (a ChaCha12 generator) is modelled by a deterministic
  64-bit state machine with an LCG mixer standing in for the block function.
  All properties proved here depend only on the generator being a pure
  deterministic state machine whose `gen_range(0..n)` output lies in `[0, n)`,
  never on the distribution or on concrete values of the stream.
* The `Vec<f64>` operand stack of the VM grows at its end in Rust; it is
  modelled as a `List F` with the top of the stack at the head.
* Fallible paths return `Except`/`Option`; Rust panics (out-of-bounds
  indexing, `gen_range` on an empty range) are noted at their definition and
  guarded by hypotheses where relevant.
-/

/-- Model of an `f64` value: NaN, or an exact finite value. -/
inductive F where
  | nan : F
  | val : ℚ → F
deriving DecidableEq

/-- Rust `a > b` on `f64`: false whenever either side is NaN. -/
def fgt : F → F → Bool
  | F.val a, F.val b => decide (b < a)
  | _, _ => false

/-- Rust `a >= b` on `f64`: false whenever either side is NaN. -/
def fge : F → F → Bool
  | F.val a, F.val b => decide (b ≤ a)
  | _, _ => false

/-- Rust `a < b` on `f64`: false whenever either side is NaN. -/
def flt : F → F → Bool
  | F.val a, F.val b => decide (a < b)
  | _, _ => false

/-- Rust `a.partial_cmp(&b)` on `f64`: `None` whenever either side is NaN. -/
def pcmp : F → F → Option Ordering
  | F.val a, F.val b =>
      some (if a < b then Ordering.lt else if b < a then Ordering.gt else Ordering.eq)
  | _, _ => none

/-- `a.partial_cmp(&b).unwrap_or(Equal).is_gt()`, the comparator used by
`best_index` in `evolve.rs`. -/
def pgt (a b : F) : Bool := decide ((pcmp a b).getD Ordering.eq = Ordering.gt)

/-- Rust `f64` addition; NaN propagates. Finite overflow to ±∞ is not
modelled (values stay exact rationals). -/
def fadd : F → F → F
  | F.val a, F.val b => F.val (a + b)
  | _, _ => F.nan

/-- Rust `f64` subtraction; NaN propagates. -/
def fsub : F → F → F
  | F.val a, F.val b => F.val (a - b)
  | _, _ => F.nan

/-- Rust `f64` multiplication; NaN propagates. -/
def fmul : F → F → F
  | F.val a, F.val b => F.val (a * b)
  | _, _ => F.nan

/-- Rust `f64` division; NaN propagates. Only reached in the VM after the
near-zero divisor guard, so the divisor is never 0 there. -/
def fdiv : F → F → F
  | F.val a, F.val b => F.val (a / b)
  | _, _ => F.nan

/-- Rust `v.clamp(-10.0, 10.0)`: NaN stays NaN. -/
def fclamp10 : F → F
  | F.nan => F.nan
  | F.val q => F.val (min 10 (max (-10) q))

/-- `x.is_finite()` — in this model the only non-finite value is NaN
(±∞ does not arise; see module comment). -/
def isFiniteF : F → Bool
  | F.nan => false
  | F.val _ => true

/-- `f64::MIN`, the most negative finite double, `-(2^53 - 1) * 2^971`,
the initial tournament accumulator in `tournament_select` (written with
`mkRat` so that it evaluates by kernel reduction). -/
def f64MIN : F := F.val (-(mkRat (Int.ofNat ((2 ^ 53 - 1) * 2 ^ 971)) 1))

/-! ## RNG (`rng.rs`) — stand-in state machine for `rand::rngs::StdRng` -/

/-- Shallow stand-in for `rand::rngs::StdRng`: a pure deterministic state
machine over a 64-bit state. The ChaCha12 block function is replaced by an
LCG mixer; no property proved below depends on the stream's values. -/
structure StdRng where
  state : Nat
deriving DecidableEq

/-- One raw 64-bit output of the generator. -/
def rngNext (g : StdRng) : Nat × StdRng :=
  let s := (g.state * 6364136223846793005 + 1442695040888963407) % (2 ^ 64)
  (s, ⟨s⟩)

/-- `StdRng::seed_from_u64(seed)` (`seeded_rng` in `rng.rs`). -/
def seeded_rng (seed : Nat) : StdRng := ⟨seed % (2 ^ 64)⟩

/-- `cfg.seed as u64`: an `i64` reinterpreted as unsigned 64-bit. -/
def seedU64 (s : Int) : Nat := (s % ((2 : Int) ^ 64)).toNat

/-- `rng.gen::<u64>()`. -/
def genU64 (g : StdRng) : Nat × StdRng := rngNext g

/-- `rng.gen_range(0..n)` on `usize` (`gen_range_usize` in `rng.rs`).
Rust panics when `n = 0`; the model then returns the raw draw. -/
def gen_range_usize (g : StdRng) (n : Nat) : Nat × StdRng :=
  let p := rngNext g
  (p.1 % n, p.2)

/-- `rng.gen_range(lo..=hi)` on `usize` (inclusive range). -/
def gen_range_incl (g : StdRng) (lo hi : Nat) : Nat × StdRng :=
  let p := rngNext g
  (lo + p.1 % (hi + 1 - lo), p.2)

/-- `rng.gen::<f64>()`: a uniform draw in `[0, 1)` with 53 bits of
precision (written with `mkRat` so that it evaluates by kernel reduction). -/
def genUnit (g : StdRng) : ℚ × StdRng :=
  let p := rngNext g
  (mkRat (Int.ofNat (p.1 % 2 ^ 53)) (2 ^ 53), p.2)

/-- `rng.gen_range(min..max)` on `f64` (`gen_range_f64` in `rng.rs`). -/
def gen_range_f64 (g : StdRng) (lo hi : ℚ) : ℚ × StdRng :=
  let p := genUnit g
  (lo + p.1 * (hi - lo), p.2)

/-! ## Genome model (`genome.rs`, `models.rs`) -/

/-- `models::Instruction`: an opcode string with an optional `f64` argument. -/
structure Instruction where
  op : String
  arg : Option F
deriving DecidableEq

/-- `models::Genome`. -/
structure Genome where
  instructions : List Instruction
deriving DecidableEq

/-- `genome::OPS`, the 12-symbol opcode set. -/
def OPS : List String :=
  ["PUSH", "LOAD", "STORE", "ADD", "SUB", "MUL", "DIV", "DUP", "SWAP", "POP", "HALT", "NOP"]

def REGISTER_COUNT : Nat := 4
def MIN_LEN : Nat := 8
def MAX_LEN : Nat := 32
def ABS_MAX_LEN : Nat := 64

/-- `genome::parse_register_index`: accepts exactly the values
`0.0, 1.0, 2.0, 3.0` (NaN and `None` rejected). -/
def parse_register_index : Option F → Except String Nat
  | some (F.val q) =>
      if q = 0 then Except.ok 0
      else if q = 1 then Except.ok 1
      else if q = 2 then Except.ok 2
      else if q = 3 then Except.ok 3
      else Except.error "invalid register index"
  | _ => Except.error "invalid register index"

/-- `genome::random_instruction`. -/
def random_instruction (g : StdRng) : Instruction × StdRng :=
  let pick := gen_range_usize g OPS.length
  let op := OPS.getD pick.1 ""
  if op = "PUSH" then
    let a := gen_range_f64 pick.2 (-10) 10
    (⟨op, some (F.val a.1)⟩, a.2)
  else if op = "LOAD" ∨ op = "STORE" then
    let a := gen_range_usize pick.2 REGISTER_COUNT
    (⟨op, some (F.val a.1)⟩, a.2)
  else
    (⟨op, none⟩, pick.2)

/-- `(0..n).map(|_| random_instruction(rng))`, threading the generator. -/
def randomInstrList : Nat → StdRng → List Instruction × StdRng
  | 0, g => ([], g)
  | n + 1, g =>
      let ri := random_instruction g
      let rest := randomInstrList n ri.2
      (ri.1 :: rest.1, rest.2)

/-- `genome::random_genome`: length drawn in `MIN_LEN..=MAX_LEN`. -/
def random_genome (g : StdRng) : Genome × StdRng :=
  let ln := gen_range_incl g MIN_LEN MAX_LEN
  let lst := randomInstrList ln.1 ln.2
  (⟨lst.1⟩, lst.2)

/-- `genome::point_mutate`: replace a uniformly chosen index with a fresh
random instruction (index drawn first, as in the source). -/
def point_mutate (g : Genome) (rng : StdRng) : Genome × StdRng :=
  let p := gen_range_usize rng g.instructions.length
  let ri := random_instruction p.2
  (⟨g.instructions.set p.1 ri.1⟩, ri.2)

/-- `genome::tweak_push`: nudge the argument of a uniformly chosen `PUSH`
(falling back to `point_mutate` when there is none). -/
def tweak_push (g : Genome) (rng : StdRng) : Genome × StdRng :=
  let pushIndices :=
    (g.instructions.enum.filter (fun p => p.2.op = "PUSH")).map (fun p => p.1)
  if pushIndices = [] then point_mutate g rng
  else
    let p := gen_range_usize rng pushIndices.length
    let idx := pushIndices.getD p.1 0
    let noise := gen_range_f64 p.2 (-1) 1
    let old := g.instructions.getD idx ⟨"", none⟩
    let newArg := fclamp10 (fadd (old.arg.getD (F.val 0)) (F.val noise.1))
    (⟨g.instructions.set idx ⟨old.op, some newArg⟩⟩, noise.2)

/-- `genome::insert_instruction`: insert a fresh instruction at a uniformly
chosen position in `0..=len` (falling back to `point_mutate` at `len ≥ 64`). -/
def insert_instruction (g : Genome) (rng : StdRng) : Genome × StdRng :=
  if ABS_MAX_LEN ≤ g.instructions.length then point_mutate g rng
  else
    let p := gen_range_incl rng 0 g.instructions.length
    let ri := random_instruction p.2
    (⟨g.instructions.take p.1 ++ ri.1 :: g.instructions.drop p.1⟩, ri.2)

/-- `genome::delete_instruction`: remove a uniformly chosen index, doing
nothing at `len ≤ 1`. -/
def delete_instruction (g : Genome) (rng : StdRng) : Genome × StdRng :=
  if g.instructions.length ≤ 1 then (g, rng)
  else
    let p := gen_range_usize rng g.instructions.length
    (⟨g.instructions.eraseIdx p.1⟩, p.2)

/-- The four-way operator choice inside `mutate_genome`
(`match rng.gen_range(0..4)`). -/
def mutate_op (g : Genome) (choice : Nat) (rng : StdRng) : Genome × StdRng :=
  match choice with
  | 0 => point_mutate g rng
  | 1 => tweak_push g rng
  | 2 => insert_instruction g rng
  | _ => delete_instruction g rng

/-- The length clamp at the end of `mutate_genome`: an empty genome receives
one random instruction, then the genome is truncated to `ABS_MAX_LEN`. -/
def mutate_finalize (g : Genome) (rng : StdRng) : Genome × StdRng :=
  let p :=
    if g.instructions = [] then
      let ri := random_instruction rng
      (g.instructions ++ [ri.1], ri.2)
    else (g.instructions, rng)
  (⟨p.1.take ABS_MAX_LEN⟩, p.2)

/-- `genome::mutate_genome`. -/
def mutate_genome (g : Genome) (rng : StdRng) : Genome × StdRng :=
  if g.instructions = [] then
    let ri := random_instruction rng
    (⟨[ri.1]⟩, ri.2)
  else
    let c := gen_range_usize rng 4
    let m := mutate_op g c.1 c.2
    mutate_finalize m.1 m.2

/-! ## Stack VM (`vm.rs`) -/

/-- `vm::VmConfig`. -/
structure VmConfig where
  max_steps : Nat
deriving DecidableEq

/-- `VmConfig::default()`: a 256-instruction budget. -/
def vmDefaultConfig : VmConfig := ⟨256⟩

/-- `vm::EPS_DIVISOR = 1e-12` (modelled as the exact rational `10⁻¹²`). -/
def EPS_DIVISOR : ℚ := mkRat 1 1000000000000

/-- `b.abs() < EPS_DIVISOR`; false for NaN (as in Rust). -/
def nearZero : F → Bool
  | F.nan => false
  | F.val q => decide (|q| < EPS_DIVISOR)

/-- `vm::VmOutcome`. -/
inductive VmOutcome where
  | ok (output : F)
  | invalid (reason : String)
deriving DecidableEq

/-- Result of dispatching one instruction: continue with new registers and
stack, break out of the loop (`HALT`), or fail with a reason. -/
inductive StepRes where
  | cont (regs : List F) (stack : List F)
  | halted
  | fail (reason : String)
deriving DecidableEq

/-- The dispatch `match instr.op.as_str()` in `run_genome`. The operand
stack has its top at the head of the list. -/
def dispatch (i : Instruction) (regs stack : List F) : StepRes :=
  match i.op with
  | "PUSH" =>
      match i.arg with
      | some v => StepRes.cont regs (v :: stack)
      | none => StepRes.fail "PUSH missing arg"
  | "LOAD" =>
      match parse_register_index i.arg with
      | Except.ok idx => StepRes.cont regs (regs.getD idx (F.val 0) :: stack)
      | Except.error e => StepRes.fail e
  | "STORE" =>
      match parse_register_index i.arg with
      | Except.ok idx =>
          match stack with
          | v :: rest => StepRes.cont (regs.set idx v) rest
          | [] => StepRes.fail "stack underflow"
      | Except.error e => StepRes.fail e
  | "ADD" =>
      match stack with
      | b :: a :: rest => StepRes.cont regs (fadd a b :: rest)
      | _ => StepRes.fail "stack underflow"
  | "SUB" =>
      match stack with
      | b :: a :: rest => StepRes.cont regs (fsub a b :: rest)
      | _ => StepRes.fail "stack underflow"
  | "MUL" =>
      match stack with
      | b :: a :: rest => StepRes.cont regs (fmul a b :: rest)
      | _ => StepRes.fail "stack underflow"
  | "DIV" =>
      match stack with
      | b :: a :: rest =>
          if nearZero b then StepRes.fail "division by near-zero"
          else StepRes.cont regs (fdiv a b :: rest)
      | _ => StepRes.fail "stack underflow"
  | "DUP" =>
      match stack with
      | v :: rest => StepRes.cont regs (v :: v :: rest)
      | [] => StepRes.fail "stack underflow"
  | "SWAP" =>
      match stack with
      | b :: a :: rest => StepRes.cont regs (a :: b :: rest)
      | _ => StepRes.fail "stack underflow"
  | "POP" =>
      match stack with
      | _ :: rest => StepRes.cont regs rest
      | [] => StepRes.fail "stack underflow"
  | "HALT" => StepRes.halted
  | "NOP" => StepRes.cont regs stack
  | _ => StepRes.fail "unknown opcode"

/-- Normal termination of `run_genome`: top of stack (or `R[0]` when the
stack is empty), rejected when non-finite. -/
def vmFinish (regs stack : List F) : VmOutcome :=
  let output := stack.headD (regs.getD 0 (F.val 0))
  if isFiniteF output then VmOutcome.ok output else VmOutcome.invalid "non-finite output"

/-- The `while pc < instructions.len()` loop of `run_genome`, instrumented
with the step counter; the program counter only moves forward, so the loop
is structural recursion on the remaining instruction list. Returns the
outcome together with the final value of `steps`. -/
def vmExec (maxSteps : Nat) : List Instruction → Nat → List F → List F → VmOutcome × Nat
  | [], steps, regs, stack => (vmFinish regs stack, steps)
  | i :: rest, steps, regs, stack =>
      if maxSteps ≤ steps then (VmOutcome.invalid "max steps exceeded", steps)
      else
        match dispatch i regs stack with
        | StepRes.cont regs2 stack2 => vmExec maxSteps rest (steps + 1) regs2 stack2
        | StepRes.halted => (vmFinish regs stack, steps + 1)
        | StepRes.fail r => (VmOutcome.invalid r, steps + 1)

/-- Initial register file: `R[0] = x`, the rest zero. -/
def initRegs (x : F) : List F := [x, F.val 0, F.val 0, F.val 0]

/-- `vm::run_genome` together with the number of instructions executed. -/
def run_genome_count (g : Genome) (x : F) (cfg : VmConfig) : VmOutcome × Nat :=
  vmExec cfg.max_steps g.instructions 0 (initRegs x) []

/-- `vm::run_genome`. -/
def run_genome (g : Genome) (x : F) (cfg : VmConfig) : VmOutcome :=
  (run_genome_count g x cfg).1

/-! ## Run state and the generational step (`evolve.rs`, `models.rs`) -/

/-- `models::RunConfig` (`seed`, `population`, `generations` are `i64`). -/
structure RunConfig where
  seed : Int
  population : Int
  generations : Int
  mutation_rate : F
  task : String
deriving DecidableEq

/-- `evolve::RunInternal`. -/
structure RunInternal where
  cfg : RunConfig
  generation : Nat
  population : List Genome
  fitness : List F
  best_fitness : F
  best_genome : Genome
  rng : StdRng
  history : List (Nat × F)
deriving DecidableEq

/-- The fold computed by `best_index`'s
`iter().enumerate().max_by(|a, b| a.1.partial_cmp(b.1).unwrap_or(Equal))`:
the accumulator is kept only when it compares strictly greater than the next
element, so on `Equal` (including every NaN comparison) the later element
wins. `i` is the absolute index of the head of the remaining list. -/
def bestFold : List F → Nat → Option (Nat × F) → Option (Nat × F)
  | [], _, acc => acc
  | f :: rest, i, none => bestFold rest (i + 1) (some (i, f))
  | f :: rest, i, some (j, b) =>
      bestFold rest (i + 1) (if pgt b f then some (j, b) else some (i, f))

/-- `evolve::best_index`. -/
def best_index (fitness : List F) : Option (Nat × F) := bestFold fitness 0 none

/-- `RunInternal::apply_fitness`. Rust indexes `self.population[idx]`
(a panic when `idx` is out of range, which the engine never does since
`|fitness| = |population|` at every call site); the model uses `getD`. -/
def apply_fitness (r : RunInternal) (fit : List F) : RunInternal :=
  let r1 := { r with fitness := fit }
  let r2 :=
    match best_index fit with
    | some (idx, best) =>
        { r1 with best_fitness := best, best_genome := r1.population.getD idx ⟨[]⟩ }
    | none => r1
  { r2 with history := r2.history ++ [(r2.generation, r2.best_fitness)] }

/-- The `k` index draws of `tournament_select`, in order. -/
def drawIndices (len : Nat) : Nat → StdRng → List Nat × StdRng
  | 0, g => ([], g)
  | k + 1, g =>
      let d := gen_range_usize g len
      let rest := drawIndices len k d.2
      (d.1 :: rest.1, rest.2)

/-- The comparison fold of `tournament_select` over the drawn indices:
the accumulator starts at `(0, f64::MIN)`, a missing fitness counts as
`0.0`, and a draw replaces the accumulator only when its fitness compares
strictly greater (`>` on `f64`, so NaN never replaces). -/
def tourFold (fitness : List F) (draws : List Nat) : Nat :=
  (draws.foldl
    (fun acc idx =>
      let fit := fitness.getD idx (F.val 0)
      if fgt fit acc.2 then (idx, fit) else acc)
    ((0 : Nat), f64MIN)).1

/-- `RunInternal::tournament_select`. The Rust loop interleaves each index
draw with its comparison; since the comparisons never touch the generator,
drawing the `k` indices first and folding afterwards is the same function. -/
def tournament_select (fitness : List F) (len k : Nat) (g : StdRng) : Nat × StdRng :=
  let ds := drawIndices len k g
  (tourFold fitness ds.1, ds.2)

/-- One iteration of the reproduction loop of `next_population`: tournament
selection (k = 3), clone, then an unconditional `gen::<f64>()` draw compared
against `mutation_rate` deciding whether to mutate. `n` counts the children
still to produce. -/
def childrenLoop (r : RunInternal) : Nat → StdRng → List Genome × StdRng
  | 0, g => ([], g)
  | n + 1, g =>
      let ts := tournament_select r.fitness r.population.length 3 g
      let child := r.population.getD ts.1 ⟨[]⟩
      let pm := genUnit ts.2
      let mc :=
        if flt (F.val pm.1) r.cfg.mutation_rate then mutate_genome child pm.2
        else (child, pm.2)
      let rest := childrenLoop r n mc.2
      (mc.1 :: rest.1, rest.2)

/-- `RunInternal::next_population`: elitism places a clone of `best_genome`
first, then the `while new_pop.len() < pop_size` loop produces
`pop_size - 1` children (zero when the population is empty, since the new
vector already holds the elite). Only the generator field of the run
changes. -/
def next_population (r : RunInternal) : List Genome × RunInternal :=
  let cl := childrenLoop r (r.population.length - 1) r.rng
  (r.best_genome :: cl.1, { r with rng := cl.2 })

/-- `(0..size).map(|_| random_genome(&mut rng))`, threading the generator. -/
def randomGenomeList : Nat → StdRng → List Genome × StdRng
  | 0, g => ([], g)
  | n + 1, g =>
      let rg := random_genome g
      let rest := randomGenomeList n rg.2
      (rg.1 :: rest.1, rest.2)

/-- `RunInternal::new`: population size `max(cfg.population, 1)` (the
`usize` conversion cannot fail on a value ≥ 1), generator seeded from
`cfg.seed as u64`, initial population drawn genome by genome. -/
def RunInternal.new (cfg : RunConfig) : RunInternal :=
  let size := (max cfg.population 1).toNat
  let pg := randomGenomeList size (seeded_rng (seedU64 cfg.seed))
  { cfg := cfg
    generation := 0
    population := pg.1
    fitness := []
    best_fitness := F.val 0
    best_genome := ⟨[]⟩
    rng := pg.2
    history := [] }

/-- `{:016x}` digit. -/
def hexChar (n : Nat) : Char :=
  if n < 10 then Char.ofNat (48 + n) else Char.ofNat (87 + n)

/-- `format!("{:016x}", v)` for `v < 2^64`. -/
def toHex16 (v : Nat) : String :=
  String.mk (((List.range 16).reverse).map (fun i => hexChar (v / 16 ^ i % 16)))

/-- `evolve::generate_run_id`: one `u64` draw formatted as 16 hex digits. -/
def generate_run_id (g : StdRng) : String × StdRng :=
  let p := genU64 g
  (toHex16 p.1, p.2)

/-- `evolve::create_run`, with the external scorer's response passed in as
the list of fitness values it returned: build the run, apply the initial
fitnesses, then draw the run id from the same generator. -/
def create_run (cfg : RunConfig) (scores : List F) : String × RunInternal :=
  let r := RunInternal.new cfg
  let r1 := apply_fitness r scores
  let idp := generate_run_id r1.rng
  (idp.1, { r1 with rng := idp.2 })

/-- `evolve::step_run`, with the scorer's response passed in as an
`Except` (an `error` models a failed scorer call). Returns the run as left
in the store together with `none` on success or the error message:
the next population is computed first (advancing the stored run's
generator), then on success the population-length check guards the commit
of population, generation bump and fitness application. -/
def step_run (r : RunInternal) (scores : Except String (List F)) :
    RunInternal × Option String :=
  let np := next_population r
  match scores with
  | Except.error e => (np.2, some e)
  | Except.ok s =>
      if np.1.length ≠ r.population.length then (np.2, some "population size mismatch")
      else
        let r2 := { np.2 with population := np.1, generation := np.2.generation + 1 }
        (apply_fitness r2 s, none)

/-- A whole client interaction as one pure function: `create_run` followed
by a sequence of steps, each with the scorer response it received; every
stochastic choice draws, in order, from the single generator seeded from
`cfg.seed`. Returns the run id and the final stored run. -/
def runPipeline (cfg : RunConfig) (initialScores : List F)
    (stepScores : List (Except String (List F))) : String × RunInternal :=
  let c := create_run cfg initialScores
  (c.1, stepScores.foldl (fun r s => (step_run r s).1) c.2)

/-! ## Concrete states used by witnesses and counterexamples -/

/-- A one-instruction genome, distinct from `gB`. -/
def gA : Genome := ⟨[⟨"NOP", none⟩]⟩

/-- The empty genome. -/
def gB : Genome := ⟨[]⟩

/-- A committed run with a single-genome population and best fitness 5. -/
def rC2 : RunInternal :=
  { cfg := ⟨0, 1, 1, F.val 0, "t"⟩
    generation := 0
    population := [gA]
    fitness := [F.val 5]
    best_fitness := F.val 5
    best_genome := gA
    rng := ⟨0⟩
    history := [(0, F.val 5)] }

/-- A committed run with two distinct population members. -/
def rC4 : RunInternal :=
  { cfg := ⟨0, 2, 1, F.val 0, "t"⟩
    generation := 0
    population := [gA, gB]
    fitness := []
    best_fitness := F.val 0
    best_genome := gA
    rng := ⟨0⟩
    history := [] }

/-- A committed run with a two-genome population (so that a step draws from
the generator). -/
def rC6 : RunInternal :=
  { cfg := ⟨0, 2, 1, F.val 0, "t"⟩
    generation := 0
    population := [gA, gB]
    fitness := [F.val 1, F.val 2]
    best_fitness := F.val 2
    best_genome := gB
    rng := ⟨0⟩
    history := [(0, F.val 2)] }

/-- A committed run with a one-genome population. -/
def rC10 : RunInternal :=
  { cfg := ⟨0, 1, 1, F.val 0, "t"⟩
    generation := 0
    population := [gA]
    fitness := [F.val 1]
    best_fitness := F.val 1
    best_genome := gA
    rng := ⟨0⟩
    history := [(0, F.val 1)] }

/-! ## Theorems -/

/-- C1: two executions of `create` followed by the same sequence of steps,
with identical configurations and identical scorer responses, produce
bit-identical run id and final run state (best genome and fitness,
population, history): every stochastic choice is drawn in a fixed order
from the single generator seeded from `cfg.seed` reinterpreted as `u64`. -/
theorem c1_determinism (cfg1 cfg2 : RunConfig) (s1 s2 : List F)
    (st1 st2 : List (Except String (List F)))
    (hc : cfg1 = cfg2) (hs : s1 = s2) (hst : st1 = st2) :
    runPipeline cfg1 s1 st1 = runPipeline cfg2 s2 st2 := by
  subst hc; subst hs; subst hst; rfl

/-- Witness for C1 at a concrete configuration and scorer transcript. -/
theorem c1_determinism_witness :
    runPipeline ⟨42, 2, 1, F.val 0, "t"⟩ [F.val 1, F.val 2]
        [Except.ok [F.val 3, F.val 4]] =
      runPipeline ⟨42, 2, 1, F.val 0, "t"⟩ [F.val 1, F.val 2]
        [Except.ok [F.val 3, F.val 4]] :=
  c1_determinism _ _ _ _ _ _ rfl rfl rfl

/-- C3 (divergence exhibit): with fitnesses `[5.0, NaN]` the comparator of
`best_index` falls back to `Equal` on the NaN comparison and `max_by` then
keeps the *later* element, so the NaN entry at index 1 wins elitism even
though a non-NaN entry exists — contradicting the documented "NaN never
wins selection nor elitism". -/
theorem c3_nan_wins_elitism :
    best_index [F.val 5, F.nan] = some (1, F.nan) := by decide

/-- C6 (amended): a step whose scorer call fails leaves every observable
field of the run unchanged — population, fitness, generation, history,
best-so-far, config — and surfaces the error; only the generator field has
advanced (the draws of `next_population` happen before scoring). -/
theorem c6_failed_step_amended (r : RunInternal) (e : String) :
    (step_run r (Except.error e)).2 = some e ∧
    (step_run r (Except.error e)).1.cfg = r.cfg ∧
    (step_run r (Except.error e)).1.generation = r.generation ∧
    (step_run r (Except.error e)).1.population = r.population ∧
    (step_run r (Except.error e)).1.fitness = r.fitness ∧
    (step_run r (Except.error e)).1.best_fitness = r.best_fitness ∧
    (step_run r (Except.error e)).1.best_genome = r.best_genome ∧
    (step_run r (Except.error e)).1.history = r.history :=
  ⟨rfl, rfl, rfl, rfl, rfl, rfl, rfl, rfl⟩

/-- C6 (counterexample to the claim as stated): on a concrete two-genome
run, a failed step does change the run — its generator state advances. -/
theorem c6_failed_step_counterexample :
    (step_run rC6 (Except.error "boom")).1.rng ≠ rC6.rng := by decide

/-- The step counter of the VM loop never exceeds the budget it starts
under. -/
theorem vmExec_count_le (ms : Nat) :
    ∀ (l : List Instruction) (steps : Nat) (regs stack : List F),
      steps ≤ ms → (vmExec ms l steps regs stack).2 ≤ ms := by
  intro l
  induction l with
  | nil => intro steps regs stack h; simpa [vmExec] using h
  | cons i rest ih =>
      intro steps regs stack h
      by_cases hs : ms ≤ steps
      · simpa [vmExec, hs] using h
      · have h1 : steps + 1 ≤ ms := by omega
        cases hd : dispatch i regs stack with
        | cont regs2 stack2 => simpa [vmExec, hs, hd] using ih (steps + 1) regs2 stack2 h1
        | halted => simp [vmExec, hs, hd]; omega
        | fail r => simp [vmExec, hs, hd]; omega

/-- C7: the VM executes at most `max_steps` instructions (the returned
count is the final value of the `steps` counter, incremented once per
dispatched instruction), and whenever the counter has reached the budget
with instructions remaining, the loop terminates immediately with the
`max steps exceeded` invalidity. Total: `vmExec` is structural recursion,
so the VM terminates on every input. -/
theorem c7_max_steps (g : Genome) (x : F) (cfg : VmConfig) :
    (run_genome_count g x cfg).2 ≤ cfg.max_steps ∧
    (∀ i rest steps regs stack, cfg.max_steps ≤ steps →
      vmExec cfg.max_steps (i :: rest) steps regs stack =
        (VmOutcome.invalid "max steps exceeded", steps)) := by
  constructor
  · exact vmExec_count_le _ _ 0 _ _ (Nat.zero_le _)
  · intro i rest steps regs stack h
    simp [vmExec, h]

/-- Witness for C7: a three-`NOP` genome under a budget of 2 executes at
most 2 instructions, and a loop entered with the counter at the budget
fails with `max steps exceeded`. -/
theorem c7_max_steps_witness :
    (run_genome_count ⟨[⟨"NOP", none⟩, ⟨"NOP", none⟩, ⟨"NOP", none⟩]⟩ (F.val 0) ⟨2⟩).2 ≤ 2 ∧
    vmExec 2 [⟨"NOP", none⟩] 2 (initRegs (F.val 0)) [] =
      (VmOutcome.invalid "max steps exceeded", 2) :=
  ⟨(c7_max_steps ⟨[⟨"NOP", none⟩, ⟨"NOP", none⟩, ⟨"NOP", none⟩]⟩ (F.val 0) ⟨2⟩).1,
   (c7_max_steps ⟨[]⟩ (F.val 0) ⟨2⟩).2 ⟨"NOP", none⟩ [] 2 (initRegs (F.val 0)) []
     (by decide)⟩

/-- C8 (amended): every dispatched op that consumes stack values fails with
`stack underflow` when the stack is too short — unconditionally for
`ADD`, `SUB`, `MUL`, `DIV`, `SWAP` (need 2) and `POP`, `DUP` (need 1);
for `STORE` provided its register argument parses (register parsing
precedes the stack check in the source). -/
theorem c8_underflow_amended (i : Instruction) (regs stack : List F) :
    ((i.op = "ADD" ∨ i.op = "SUB" ∨ i.op = "MUL" ∨ i.op = "DIV" ∨ i.op = "SWAP") →
      stack.length < 2 → dispatch i regs stack = StepRes.fail "stack underflow") ∧
    ((i.op = "POP" ∨ i.op = "DUP") → stack = [] →
      dispatch i regs stack = StepRes.fail "stack underflow") ∧
    (i.op = "STORE" → (∃ k, parse_register_index i.arg = Except.ok k) → stack = [] →
      dispatch i regs stack = StepRes.fail "stack underflow") := by
  obtain ⟨op, arg⟩ := i
  refine ⟨?_, ?_, ?_⟩
  · intro hop hlen
    match stack, hlen with
    | [], _ =>
        rcases hop with h | h | h | h | h <;> subst h <;> rfl
    | [a], _ =>
        rcases hop with h | h | h | h | h <;> subst h <;> rfl
  · intro hop hstack
    subst hstack
    rcases hop with h | h <;> subst h <;> rfl
  · intro hop hex hstack
    subst hop; subst hstack
    obtain ⟨k, hk⟩ := hex
    simp only [dispatch, hk]

/-- Witness for C8 (amended) at `ADD` on an empty stack. -/
theorem c8_underflow_amended_witness :
    dispatch ⟨"ADD", none⟩ (initRegs (F.val 0)) [] = StepRes.fail "stack underflow" :=
  (c8_underflow_amended ⟨"ADD", none⟩ (initRegs (F.val 0)) []).1 (Or.inl rfl) (by decide)

/-- C8 (counterexample to the claim as stated): `STORE` with a missing
register argument on an empty stack fails with `invalid register index`,
not `stack underflow` — register parsing happens before the stack check. -/
theorem c8_underflow_counterexample :
    run_genome ⟨[⟨"STORE", none⟩]⟩ (F.val 0) vmDefaultConfig =
      VmOutcome.invalid "invalid register index" ∧
    VmOutcome.invalid "invalid register index" ≠ VmOutcome.invalid "stack underflow" := by
  exact ⟨rfl, by decide⟩

/-- C9: after `mutate_genome` the instruction count always lies in
`[1, 64]`: the final clamp inserts one random instruction into an empty
genome and truncates to `ABS_MAX_LEN = 64`. Holds for every input genome
and every generator state. -/
theorem c9_mutate_length (g : Genome) (rng : StdRng) :
    1 ≤ (mutate_genome g rng).1.instructions.length ∧
    (mutate_genome g rng).1.instructions.length ≤ 64 := by
  have hfin : ∀ (g2 : Genome) (r2 : StdRng),
      1 ≤ (mutate_finalize g2 r2).1.instructions.length ∧
      (mutate_finalize g2 r2).1.instructions.length ≤ 64 := by
    intro g2 r2
    by_cases h2 : g2.instructions = []
    · simp [mutate_finalize, h2, ABS_MAX_LEN]
    · have hp : 0 < g2.instructions.length := List.length_pos.mpr h2
      simp only [mutate_finalize, h2, if_neg, ite_false, List.length_take, ABS_MAX_LEN]
      omega
  by_cases h : g.instructions = []
  · simp [mutate_genome, h]
  · simpa [mutate_genome, h] using
      hfin (mutate_op g (gen_range_usize rng 4).1 (gen_range_usize rng 4).2).1
           (mutate_op g (gen_range_usize rng 4).1 (gen_range_usize rng 4).2).2

/-- The reproduction loop produces exactly the requested number of
children. -/
theorem childrenLoop_length (r : RunInternal) :
    ∀ (n : Nat) (g : StdRng), (childrenLoop r n g).1.length = n := by
  intro n
  induction n with
  | zero => intro g; simp [childrenLoop]
  | succ k ih => intro g; simp [childrenLoop, ih]

/-- C10: for a run with a non-empty population, `next_population` returns
exactly `|population|` genomes (the elite plus `|population| - 1`
children), so the `population size mismatch` branch of `step_run` is
unreachable: a step with a successful scorer response never fails. -/
theorem c10_size_check_unreachable (r : RunInternal) (h : r.population ≠ []) :
    (next_population r).1.length = r.population.length ∧
    ∀ s, (step_run r (Except.ok s)).2 = none := by
  have hp : 0 < r.population.length := List.length_pos.mpr h
  have hlen : (next_population r).1.length = r.population.length := by
    simp only [next_population, List.length_cons, childrenLoop_length]
    omega
  refine ⟨hlen, ?_⟩
  intro s
  simp [step_run, hlen]

/-- Witness for C10 on a concrete one-genome run. -/
theorem c10_size_check_unreachable_witness :
    (next_population rC10).1.length = rC10.population.length ∧
    (step_run rC10 (Except.ok [F.val 3])).2 = none :=
  ⟨(c10_size_check_unreachable rC10 (by decide)).1,
   (c10_size_check_unreachable rC10 (by decide)).2 [F.val 3]⟩

/-- `pgt` on two finite values is the strict comparison of the rationals. -/
theorem pgt_val_val (qb qf : ℚ) : pgt (F.val qb) (F.val qf) = decide (qf < qb) := by
  simp only [pgt, pcmp, Option.getD_some]
  by_cases h1 : qb < qf
  · simp [h1, not_lt.mpr (le_of_lt h1)]
  · by_cases h2 : qf < qb
    · simp [h1, h2]
    · simp [h1, h2]

/-- Characterization of the `max_by` fold of `best_index` on NaN-free
lists, relative to a finite accumulator `(j, qb)`: the fold returns a pair
`(k, qv)` where either the accumulator survived or `k` addresses a list
element equal to `qv`; `qv` dominates the accumulator and every element;
and every element strictly after position `k` is strictly below `qv`
(on `Equal` the comparator discards the accumulator, so the *last*
maximal element wins). -/
theorem bestFold_go (l : List F) (hn : F.nan ∉ l) :
    ∀ (i j : Nat) (qb : ℚ),
    ∃ k qv, bestFold l i (some (j, F.val qb)) = some (k, F.val qv) ∧
      ((k = j ∧ qv = qb) ∨
        (∃ m, m < l.length ∧ k = i + m ∧ l.getD m F.nan = F.val qv)) ∧
      qb ≤ qv ∧
      (∀ m, m < l.length → ∃ qm, l.getD m F.nan = F.val qm ∧ qm ≤ qv) ∧
      (∀ m, m < l.length → k < i + m → ∀ qm, l.getD m F.nan = F.val qm → qm < qv) := by
  induction l with
  | nil =>
      intro i j qb
      exact ⟨j, qb, rfl, Or.inl ⟨rfl, rfl⟩, le_refl _, by simp, by simp⟩
  | cons f rest ih =>
      intro i j qb
      have hf : f ≠ F.nan := fun h => hn (by simp [h])
      obtain ⟨qf, rfl⟩ : ∃ qf, f = F.val qf := by
        cases f with
        | nan => exact absurd rfl hf
        | val q => exact ⟨q, rfl⟩
      have hn' : F.nan ∉ rest := fun h => hn (List.mem_cons_of_mem _ h)
      have hunfold : bestFold (F.val qf :: rest) i (some (j, F.val qb)) =
          bestFold rest (i + 1)
            (if pgt (F.val qb) (F.val qf) then some (j, F.val qb)
             else some (i, F.val qf)) := rfl
      by_cases hcase : qf < qb
      · have hif : (if pgt (F.val qb) (F.val qf) then some (j, F.val qb)
            else some (i, F.val qf)) = some (j, F.val qb) := by
          rw [pgt_val_val]; simp [hcase]
        obtain ⟨k, qv, heq, hloc, hle, hmax, hafter⟩ := ih hn' (i + 1) j qb
        refine ⟨k, qv, by rw [hunfold, hif, heq], ?_, hle, ?_, ?_⟩
        · rcases hloc with h | ⟨m, hm, hk, hget⟩
          · exact Or.inl h
          · exact Or.inr ⟨m + 1, by simp only [List.length_cons]; omega, by omega,
              by simpa using hget⟩
        · intro m hm
          simp only [List.length_cons] at hm
          cases m with
          | zero => exact ⟨qf, by simp, le_of_lt (lt_of_lt_of_le hcase hle)⟩
          | succ m' => simpa using hmax m' (by omega)
        · intro m hm hklt qm hget
          simp only [List.length_cons] at hm
          cases m with
          | zero =>
              rcases hloc with ⟨hkj, hqv⟩ | ⟨m', hm', hk, _⟩
              · have hq : qm = qf := by
                  have : F.val qf = F.val qm := by simpa using hget
                  injection this.symm
                rw [hq, hqv]
                exact hcase
              · omega
          | succ m' =>
              exact hafter m' (by omega) (by omega) qm (by simpa using hget)
      · have hqbf : qb ≤ qf := not_lt.mp hcase
        have hif : (if pgt (F.val qb) (F.val qf) then some (j, F.val qb)
            else some (i, F.val qf)) = some (i, F.val qf) := by
          rw [pgt_val_val]; simp [hcase]
        obtain ⟨k, qv, heq, hloc, hle, hmax, hafter⟩ := ih hn' (i + 1) i qf
        refine ⟨k, qv, by rw [hunfold, hif, heq], ?_, le_trans hqbf hle, ?_, ?_⟩
        · rcases hloc with ⟨hkj, hqv⟩ | ⟨m, hm, hk, hget⟩
          · refine Or.inr ⟨0, by simp, by omega, ?_⟩
            simp [hqv]
          · exact Or.inr ⟨m + 1, by simp only [List.length_cons]; omega, by omega,
              by simpa using hget⟩
        · intro m hm
          simp only [List.length_cons] at hm
          cases m with
          | zero => exact ⟨qf, by simp, hle⟩
          | succ m' => simpa using hmax m' (by omega)
        · intro m hm hklt qm hget
          simp only [List.length_cons] at hm
          cases m with
          | zero =>
              rcases hloc with ⟨hkj, _⟩ | ⟨m', _, hk, _⟩ <;> omega
          | succ m' =>
              exact hafter m' (by omega) (by omega) qm (by simpa using hget)

/-- Specification of `best_index` on a non-empty NaN-free fitness list:
it yields a finite maximum located at the returned index, and every
element strictly after that index is strictly below it (the *largest*
index attaining the maximum wins). -/
theorem best_index_spec (l : List F) (hne : l ≠ []) (hn : F.nan ∉ l) :
    ∃ k qv, best_index l = some (k, F.val qv) ∧ k < l.length ∧
      l.getD k F.nan = F.val qv ∧
      (∀ m, m < l.length → ∃ qm, l.getD m F.nan = F.val qm ∧ qm ≤ qv) ∧
      (∀ m, m < l.length → k < m → ∀ qm, l.getD m F.nan = F.val qm → qm < qv) := by
  obtain ⟨f, rest, rfl⟩ := List.exists_cons_of_ne_nil hne
  have hf : f ≠ F.nan := fun h => hn (by simp [h])
  obtain ⟨qf, rfl⟩ : ∃ qf, f = F.val qf := by
    cases f with
    | nan => exact absurd rfl hf
    | val q => exact ⟨q, rfl⟩
  have hn' : F.nan ∉ rest := fun h => hn (List.mem_cons_of_mem _ h)
  have hsd : best_index (F.val qf :: rest) = bestFold rest 1 (some (0, F.val qf)) := rfl
  obtain ⟨k, qv, heq, hloc, hle, hmax, hafter⟩ := bestFold_go rest hn' 1 0 qf
  refine ⟨k, qv, by rw [hsd, heq], ?_, ?_, ?_, ?_⟩
  · rcases hloc with ⟨hkj, _⟩ | ⟨m, hm, hk, _⟩ <;>
      simp only [List.length_cons] <;> omega
  · rcases hloc with ⟨hkj, hqv⟩ | ⟨m, hm, hk, hget⟩
    · subst hkj; simp [hqv]
    · have hk1 : k = m + 1 := by omega
      subst hk1
      simpa using hget
  · intro m hm
    simp only [List.length_cons] at hm
    cases m with
    | zero => exact ⟨qf, by simp, hle⟩
    | succ m' => simpa using hmax m' (by omega)
  · intro m hm hkm qm hget
    simp only [List.length_cons] at hm
    cases m with
    | zero => omega
    | succ m' =>
        exact hafter m' (by omega) (by omega) qm (by simpa using hget)

/-- C4 (amended): after `apply_fitness` with a non-empty NaN-free fitness
vector (of length at most the population's, as at every call site), the
run's `best_fitness` is the maximum of the vector and `best_genome` is the
population member at the *largest* index attaining it: every entry is
`≤ best_fitness` and every entry strictly after the chosen index is
strictly below it. -/
theorem c4_best_amended (r : RunInternal) (fitness : List F)
    (h1 : fitness ≠ []) (h2 : F.nan ∉ fitness)
    (_hlen : fitness.length ≤ r.population.length) :
    ∃ i, i < fitness.length ∧
      (apply_fitness r fitness).best_fitness = fitness.getD i F.nan ∧
      (apply_fitness r fitness).best_genome = r.population.getD i ⟨[]⟩ ∧
      (∀ j, j < fitness.length →
        fge (fitness.getD i F.nan) (fitness.getD j F.nan) = true) ∧
      (∀ j, j < fitness.length → i < j →
        fitness.getD j F.nan ≠ fitness.getD i F.nan) := by
  obtain ⟨k, qv, heq, hk, hget, hmax, hafter⟩ := best_index_spec fitness h1 h2
  have hbf : (apply_fitness r fitness).best_fitness = F.val qv := by
    simp [apply_fitness, heq]
  have hbg : (apply_fitness r fitness).best_genome = r.population.getD k ⟨[]⟩ := by
    simp [apply_fitness, heq]
  refine ⟨k, hk, by rw [hbf, hget], hbg, ?_, ?_⟩
  · intro j hj
    obtain ⟨qj, hgj, hle⟩ := hmax j hj
    rw [hget, hgj]
    exact decide_eq_true hle
  · intro j hj hlt
    obtain ⟨qj, hgj, _⟩ := hmax j hj
    have hstrict := hafter j hj hlt qj hgj
    rw [hget, hgj]
    intro hcontra
    have hqq : qj = qv := by injection hcontra
    exact absurd hqq (ne_of_lt hstrict)

/-- Witness for C4 (amended) on a concrete run with fitnesses `[1, 3]`. -/
theorem c4_best_amended_witness :
    ∃ i, i < ([F.val 1, F.val 3] : List F).length ∧
      (apply_fitness rC4 [F.val 1, F.val 3]).best_fitness =
        [F.val 1, F.val 3].getD i F.nan ∧
      (apply_fitness rC4 [F.val 1, F.val 3]).best_genome =
        rC4.population.getD i ⟨[]⟩ ∧
      (∀ j, j < ([F.val 1, F.val 3] : List F).length →
        fge ([F.val 1, F.val 3].getD i F.nan) ([F.val 1, F.val 3].getD j F.nan) = true) ∧
      (∀ j, j < ([F.val 1, F.val 3] : List F).length → i < j →
        [F.val 1, F.val 3].getD j F.nan ≠ [F.val 1, F.val 3].getD i F.nan) :=
  c4_best_amended rC4 [F.val 1, F.val 3] (by decide) (by decide) (by decide)

/-- C4 (counterexample to the claim as stated): with the tied fitness
vector `[2, 2]` on a two-member population of distinct genomes, the
comparator's `Equal` fallback makes `max_by` keep the *later* element, so
`best_genome` is the member at index 1, not at the smallest attaining
index 0. -/
theorem c4_tie_counterexample :
    rC4.population = [gA, gB] ∧ gA ≠ gB ∧
    (apply_fitness rC4 [F.val 2, F.val 2]).best_fitness = F.val 2 ∧
    (apply_fitness rC4 [F.val 2, F.val 2]).best_genome = gB := by
  exact ⟨rfl, by decide, by decide, by decide⟩

/-- C2 (amended): a successful step cannot decrease `best_fitness`
provided the scorer returns no NaN and gives the first member of the new
population — the elitist clone of the previous `best_genome` — a score at
least the previous `best_fitness`. (Without that proviso the claim fails:
`apply_fitness` overwrites `best_fitness` with the new maximum
unconditionally.) -/
theorem c2_monotone_amended (r : RunInternal) (scores : List F) (r' : RunInternal)
    (hstep : step_run r (Except.ok scores) = (r', none))
    (hn : F.nan ∉ scores)
    (hel : fge (scores.headD F.nan) r.best_fitness = true) :
    fge r'.best_fitness r.best_fitness = true := by
  have hne : scores ≠ [] := by
    intro h
    subst h
    simp [List.headD, fge] at hel
  obtain ⟨s0, srest, rfl⟩ := List.exists_cons_of_ne_nil hne
  obtain ⟨q0, rfl⟩ : ∃ q0, s0 = F.val q0 := by
    cases s0 with
    | nan => simp [fge] at hel
    | val q => exact ⟨q, rfl⟩
  obtain ⟨qold, hold⟩ : ∃ qold, r.best_fitness = F.val qold := by
    rcases hb : r.best_fitness with _ | q
    · rw [hb] at hel; simp [fge] at hel
    · exact ⟨q, rfl⟩
  have hq0 : qold ≤ q0 := by
    rw [hold] at hel
    simpa [fge] using hel
  by_cases hc : (next_population r).1.length ≠ r.population.length
  · exfalso
    have h2 := hstep
    simp only [step_run] at h2
    rw [if_pos hc] at h2
    have h3 := congrArg Prod.snd h2
    simp at h3
  · obtain ⟨k, qv, heq, hk, hget, hmax, hafter⟩ :=
      best_index_spec (F.val q0 :: srest) hne hn
    have hbf : r'.best_fitness = F.val qv := by
      have h2 := hstep
      simp only [step_run] at h2
      rw [if_neg hc] at h2
      have h3 := congrArg Prod.fst h2
      simp only at h3
      rw [← h3]
      simp [apply_fitness, heq]
    obtain ⟨qh, hgh, hhle⟩ := hmax 0 (by simp)
    have hq0h : q0 = qh := by
      have hx : F.val q0 = F.val qh := by simpa using hgh
      injection hx
    rw [hbf, hold]
    exact decide_eq_true (by linarith)

/-- Witness for C2 (amended): a successful step whose scorer response `[7]`
dominates the previous best 5. -/
theorem c2_monotone_amended_witness :
    fge (step_run rC2 (Except.ok [F.val 7])).1.best_fitness rC2.best_fitness = true :=
  c2_monotone_amended rC2 [F.val 7] (step_run rC2 (Except.ok [F.val 7])).1
    (by decide) (by decide) (by decide)

/-- C2 (counterexample to the claim as stated): a successful step whose
scorer returns only the value 1 on a run whose best fitness was 5 lowers
`best_fitness` — with arbitrary scorer responses, elitism does not make
`best_fitness` monotone. -/
theorem c2_monotone_counterexample :
    (step_run rC2 (Except.ok [F.val 1])).2 = none ∧
    rC2.best_fitness = F.val 5 ∧
    fge (step_run rC2 (Except.ok [F.val 1])).1.best_fitness rC2.best_fitness = false := by
  exact ⟨by decide, rfl, by decide⟩

/-- C5 (amended): the tournament fold over three drawn indices returns the
earliest draw whose fitness is maximal among the three, provided each drawn
fitness (missing entries count as `0.0`) compares strictly greater than the
`f64::MIN` initial accumulator — which also excludes NaN, since NaN wins no
`>` comparison and so can never replace the accumulator. -/
theorem c5_tournament_amended (fitness : List F) (d1 d2 d3 : Nat)
    (h1 : fgt (fitness.getD d1 (F.val 0)) f64MIN = true)
    (h2 : fgt (fitness.getD d2 (F.val 0)) f64MIN = true)
    (h3 : fgt (fitness.getD d3 (F.val 0)) f64MIN = true) :
    tourFold fitness [d1, d2, d3] =
      (if fge (fitness.getD d1 (F.val 0)) (fitness.getD d2 (F.val 0)) &&
          fge (fitness.getD d1 (F.val 0)) (fitness.getD d3 (F.val 0)) then d1
       else if fge (fitness.getD d2 (F.val 0)) (fitness.getD d3 (F.val 0)) then d2
       else d3) := by
  rcases hf1 : fitness.getD d1 (F.val 0) with _ | q1
  · rw [hf1] at h1; exact absurd h1 (by decide)
  rcases hf2 : fitness.getD d2 (F.val 0) with _ | q2
  · rw [hf2] at h2; exact absurd h2 (by decide)
  rcases hf3 : fitness.getD d3 (F.val 0) with _ | q3
  · rw [hf3] at h3; exact absurd h3 (by decide)
  rw [hf1] at h1
  simp only [tourFold, List.foldl]
  rw [hf1, hf2, hf3]
  rcases le_or_lt q2 q1 with hc1 | hc1
  · rcases le_or_lt q3 q1 with hc2 | hc2
    · have e1 : fgt (F.val q2) (F.val q1) = false := decide_eq_false (not_lt.mpr hc1)
      have e2 : fgt (F.val q3) (F.val q1) = false := decide_eq_false (not_lt.mpr hc2)
      have r1 : fge (F.val q1) (F.val q2) = true := decide_eq_true hc1
      have r2 : fge (F.val q1) (F.val q3) = true := decide_eq_true hc2
      simp [h1, e1, e2, r1, r2]
    · have e1 : fgt (F.val q2) (F.val q1) = false := decide_eq_false (not_lt.mpr hc1)
      have e2 : fgt (F.val q3) (F.val q1) = true := decide_eq_true hc2
      have r2 : fge (F.val q1) (F.val q3) = false := decide_eq_false (not_le.mpr hc2)
      have r3 : fge (F.val q2) (F.val q3) = false :=
        decide_eq_false (not_le.mpr (lt_of_le_of_lt hc1 hc2))
      simp [h1, e1, e2, r2, r3]
  · rcases le_or_lt q3 q2 with hc2 | hc2
    · have e1 : fgt (F.val q2) (F.val q1) = true := decide_eq_true hc1
      have e2 : fgt (F.val q3) (F.val q2) = false := decide_eq_false (not_lt.mpr hc2)
      have r1 : fge (F.val q1) (F.val q2) = false := decide_eq_false (not_le.mpr hc1)
      have r3 : fge (F.val q2) (F.val q3) = true := decide_eq_true hc2
      simp [h1, e1, e2, r1, r3]
    · have e1 : fgt (F.val q2) (F.val q1) = true := decide_eq_true hc1
      have e2 : fgt (F.val q3) (F.val q2) = true := decide_eq_true hc2
      have r1 : fge (F.val q1) (F.val q2) = false := decide_eq_false (not_le.mpr hc1)
      have r3 : fge (F.val q2) (F.val q3) = false := decide_eq_false (not_le.mpr hc2)
      simp [h1, e1, e2, r1, r3]

/-- Witness for C5 (amended): draws `0, 1, 1` over fitnesses `[1, 2]`
select index 1. -/
theorem c5_tournament_amended_witness :
    tourFold [F.val 1, F.val 2] [0, 1, 1] = 1 :=
  (c5_tournament_amended [F.val 1, F.val 2] 0 1 1
    (by decide) (by decide) (by decide)).trans (by decide)

/-- C5 (counterexample to the claim as stated): with fitnesses `[1, NaN]`
and all three draws equal to index 1, a NaN fitness does not count as
`0.0` — it never beats the `f64::MIN` accumulator, so the function returns
the initial index 0, which is not among the drawn indices at all. -/
theorem c5_tournament_counterexample :
    tourFold [F.val 1, F.nan] [1, 1, 1] = 0 ∧ (0 : Nat) ∉ [1, 1, 1] := by
  exact ⟨by decide, by decide⟩
